import Mathlib

/-!
Verification of the client-side core of the AI resume screener:
the submission/validation pipeline of `frontend/src/components/UploadForm.jsx`
and the results transformation engine of `frontend/src/components/Results.jsx`,
embedded shallowly as pure Lean functions.
-/

namespace ResumeScreener

/-- A resume file as submitted: `File.name` and `File.size` in bytes. -/
structure ResumeFile where
  name : String
  size : Nat
  deriving DecidableEq, Repr

/-- One ranked candidate as returned by the ranking service. `Results.jsx`
reads `name`, `score` and the optional `rank`, `assessment`, `explanation`.
The service assigns integer scores (not locally range-validated), modelled
as `Int`. -/
structure RankedResult where
  name : String
  score : Int
  rank : Option Int := none
  assessment : Option String := none
  explanation : Option String := none
  deriving DecidableEq, Repr

/-- The failure taxonomy of `UploadForm.jsx`. The first five constructors
stand for the five local `setError` strings of `validateInputs`
("Job description cannot be empty", "Job description must be at least 50
characters", "Please upload at least one resume", "Maximum 10 resumes
allowed", "File NAME exceeds 5MB limit"); `ServiceUnavailable` is the
`catch` branch message of `handleSubmit`. -/
inductive SubmissionError where
  | EmptyJobDescription
  | JobDescriptionTooShort
  | NoFilesProvided
  | TooManyFiles
  | FileTooLarge (fileName : String)
  | ServiceUnavailable (message : String)
  deriving DecidableEq, Repr

/-- The code points ECMAScript `String.prototype.trim` strips: the WhiteSpace
production (tab, VT, FF, space, NBSP, BOM and the Unicode space separators)
and the LineTerminator production (LF, CR, LS, PS). -/
def jsWhitespace : List Nat :=
  [0x9, 0xA, 0xB, 0xC, 0xD, 0x20, 0xA0, 0x1680,
   0x2000, 0x2001, 0x2002, 0x2003, 0x2004, 0x2005, 0x2006, 0x2007,
   0x2008, 0x2009, 0x200A, 0x2028, 0x2029, 0x202F, 0x205F, 0x3000, 0xFEFF]

/-- Whether a character is JS whitespace (see `jsWhitespace`). -/
def isJsWhitespace (c : Char) : Bool :=
  jsWhitespace.contains c.toNat

/-- JS `s.trim()`: strip leading and trailing JS whitespace. -/
def jsTrim (s : String) : String :=
  ⟨((s.data.dropWhile isJsWhitespace).reverse.dropWhile isJsWhitespace).reverse⟩

/-- JS `s.length`: the number of UTF-16 code units (code points above the
basic multilingual plane count twice). -/
def utf16Length (s : String) : Nat :=
  s.data.foldl (fun n c => n + (if c.toNat < 0x10000 then 1 else 2)) 0

/-- The `for (let file of files)` loop of `validateInputs`: the first file in
submission order whose size exceeds `5 * 1024 * 1024` bytes, if any. -/
def findOversized : List ResumeFile → Option ResumeFile
  | [] => none
  | f :: fs => if f.size > 5 * 1024 * 1024 then some f else findOversized fs

/-- `validateInputs` of `UploadForm.jsx`: the five checks in source order,
returning the first failure, or `none` when all pass. JS `jd.trim()` is
modelled by `jsTrim` and JS `.length` by `utf16Length`; the JS truthiness
test `!jd.trim()` is emptiness of the trimmed string; the guard
`!files || files.length === 0` is emptiness of the file list. -/
def validateInputs (jd : String) (files : List ResumeFile) : Option SubmissionError :=
  if jsTrim jd = "" then some .EmptyJobDescription
  else if utf16Length (jsTrim jd) < 50 then some .JobDescriptionTooShort
  else if files.length = 0 then some .NoFilesProvided
  else if files.length > 10 then some .TooManyFiles
  else
    match findOversized files with
    | some f => some (.FileTooLarge f.name)
    | none => none

/-- The mutable inputs of the upload form: the `jd` text state and the
`files` selection state. -/
structure FormState where
  jd : String
  files : List ResumeFile
  deriving DecidableEq, Repr

/-- The observable outcome of one `handleSubmit` run: the input state after
the run, the `setResults` publication (if any), the `setError` value at the
end of the run (`none` when the run left the error cleared), whether the
`rankResumes` network call was made, and every `setProgress` value in the
order published. -/
structure SubmitResult where
  newState : FormState
  published : Option (List RankedResult)
  error : Option SubmissionError
  networkCalled : Bool
  progressTrace : List Nat
  deriving DecidableEq, Repr

/-- `handleSubmit` of `UploadForm.jsx`, with the outcome of the single
awaited `rankResumes` call passed in as `net` (`Except.error msg` is a
rejected promise whose `err.message` is `msg`; the code substitutes the
generic message when `err.message` is falsy, i.e. the empty string).

On validation failure the function returns before `setProgress(10)`, so the
trace is empty. Otherwise the code publishes 10 and 30, awaits the call,
publishes 100 and `setResults` and clears both inputs on success, sets the
error on failure, and the `finally` block publishes 0 in every case. -/
def handleSubmit (st : FormState) (net : Except String (List RankedResult)) : SubmitResult :=
  match validateInputs st.jd st.files with
  | some e =>
    { newState := st, published := none, error := some e,
      networkCalled := false, progressTrace := [] }
  | none =>
    match net with
    | .ok data =>
      { newState := { jd := "", files := [] }, published := some data, error := none,
        networkCalled := true, progressTrace := [10, 30, 100, 0] }
    | .error msg =>
      { newState := st, published := none,
        error := some (.ServiceUnavailable
          (if msg = "" then "Failed to rank resumes. Please try again." else msg)),
        networkCalled := true, progressTrace := [10, 30, 0] }

/-- The two values of the sort select of `Results.jsx`. -/
inductive SortKey where
  | score
  | name
  deriving DecidableEq, Repr

/-- The `sortBy === "score"` comparator `(a, b) => b.score - a.score` as a
non-strict relation: `a` sorts no later than `b` exactly when the comparator
is `≤ 0`, i.e. `b.score ≤ a.score`. -/
def scoreDesc (a b : RankedResult) : Prop := b.score ≤ a.score

instance : DecidableRel scoreDesc :=
  fun a b => inferInstanceAs (Decidable (b.score ≤ a.score))

instance : IsTotal RankedResult scoreDesc :=
  ⟨fun a b => le_total b.score a.score⟩

instance : IsTrans RankedResult scoreDesc :=
  ⟨fun _ _ _ h h' => le_trans h' h⟩

/-- The `sortBy === "name"` comparator `a.name.localeCompare(b.name)` as a
non-strict relation, with locale-aware comparison modelled as code-point
string order (locale collation tables are outside the embedding; no claim
depends on the name ordering). -/
def nameAsc (a b : RankedResult) : Prop := a.name ≤ b.name

instance : DecidableRel nameAsc :=
  fun a b => inferInstanceAs (Decidable (a.name ≤ b.name))

instance : IsTotal RankedResult nameAsc :=
  ⟨fun a b => le_total a.name b.name⟩

instance : IsTrans RankedResult nameAsc :=
  ⟨fun _ _ _ h h' => le_trans h h'⟩

/-- The `sorted` view of `Results.jsx`: `[...filtered].sort(comparator)`.
ECMAScript `Array.prototype.sort` is required to be stable and here acts on
a copy of `filtered`; it is modelled as a stable insertion sort on the
comparator's non-strict relation. -/
def sortResults : SortKey → List RankedResult → List RankedResult
  | .score, l => List.insertionSort scoreDesc l
  | .name, l => List.insertionSort nameAsc l

/-- The `filtered` view of `Results.jsx`:
`results.filter((r) => r.score >= filterThreshold)`. -/
def filteredResults (results : List RankedResult) (filterThreshold : Int) : List RankedResult :=
  results.filter (fun r => decide (filterThreshold ≤ r.score))

/-- The fold `(sum, r) => sum + r.score` of the stats reduce, with initial
accumulator 0. -/
def sumScores (l : List RankedResult) : Int :=
  l.foldl (fun s r => s + r.score) 0

/-- `Math.max(...xs)` over a list of scores; `none` models the `-Infinity`
produced by an empty spread. -/
def jsMax : List Int → Option Int
  | [] => none
  | x :: xs => some (xs.foldl max x)

/-- `(sum / len).toFixed(1)` as an integer number of tenths: the nearest
multiple of 1/10 to `sum / len`, the larger one on ties (the `toFixed`
rounding rule), i.e. `⌊10 * sum / len + 1/2⌋` computed as a Euclidean
integer division. The JS code divides in binary floating point before
formatting; for integer scores the two agree away from
float-representation edge cases. -/
def fixedOneTenths (sum : Int) (len : Nat) : Int :=
  Int.ediv (20 * sum + len) (2 * len)

/-- The aggregate `stats` object of `Results.jsx`, computed over the
unfiltered `results`: `total` is `results.length`; `avgScoreTenths` is
`(results.reduce((sum, r) => sum + r.score, 0) / results.length).toFixed(1)`
in tenths (the displayed "70.0" is 700 tenths), with `none` standing for the
NaN of `0 / 0` on an empty list; `topScore` is
`Math.max(...results.map((r) => r.score))`, with `none` standing for the
`-Infinity` of an empty spread. Both `none` cases are unreachable through
`renderResults`, which guards the empty list. -/
structure Stats where
  total : Nat
  avgScoreTenths : Option Int
  topScore : Option Int
  deriving DecidableEq, Repr

/-- The stats computation of `Results.jsx` over the unfiltered result set. -/
def computeStats (results : List RankedResult) : Stats :=
  { total := results.length,
    avgScoreTenths :=
      if results.length = 0 then none
      else some (fixedOneTenths (sumScores results) results.length),
    topScore := jsMax (results.map (·.score)) }

/-- `getScoreBadge` of `Results.jsx` (the code prefixes each label with a
colored dot emoji; the four categories are modelled as an enum). The
thresholds are literals in the function body; no configuration reaches
them. -/
inductive Badge where
  | Excellent
  | Good
  | Fair
  | Poor
  deriving DecidableEq, Repr

/-- The badge classification: `score >= 80`, `score >= 60`, `score >= 40`
cascading, else Poor. -/
def getScoreBadge (score : Int) : Badge :=
  if score ≥ 80 then .Excellent
  else if score ≥ 60 then .Good
  else if score ≥ 40 then .Fair
  else .Poor

/-- The derived view of `Results.jsx` past the empty guard: the filtered,
stably sorted visible list plus stats over the unfiltered result set. -/
structure View where
  visible : List RankedResult
  stats : Stats
  deriving DecidableEq, Repr

/-- `deriveView`: filter by threshold, stable-sort a copy by the sort key,
and compute stats over the unfiltered `results`. -/
def deriveView (results : List RankedResult) (sortBy : SortKey) (filterThreshold : Int) : View :=
  { visible := sortResults sortBy (filteredResults results filterThreshold),
    stats := computeStats results }

/-- What the results pane renders: the empty-state placeholder or a derived
view. -/
inductive RenderOutput where
  | emptyState
  | view (v : View)
  deriving DecidableEq, Repr

/-- The `Results` component body: `if (!results || results.length === 0)`
returns the empty-state placeholder before any view derivation; otherwise
the derived view. `none` models an absent `results` prop. -/
def renderResults (results : Option (List RankedResult)) (sortBy : SortKey)
    (filterThreshold : Int) : RenderOutput :=
  match results with
  | none => .emptyState
  | some rs =>
    if rs.length = 0 then .emptyState
    else .view (deriveView rs sortBy filterThreshold)

/-- A 63-character job description (no surrounding whitespace), valid under
the 50-character minimum. -/
def jd63 : String :=
  "Senior software engineer role requiring React and Flask ability"

/-- A 1 KiB resume file, well under the 5 MiB limit. -/
def smallFile : ResumeFile := { name := "resume.pdf", size := 1024 }

/-- A 6 MiB resume file, over the 5 MiB limit. -/
def bigFile : ResumeFile := { name := "big.pdf", size := 6 * 1024 * 1024 }

/-- The stats example result set with scores 90, 70, 50. -/
def demo3 : List RankedResult :=
  [{ name := "Ann", score := 90 }, { name := "Ben", score := 70 },
   { name := "Cal", score := 50 }]

/-- The stability example: candidate A with score 50. -/
def resultA : RankedResult := { name := "A", score := 50 }

/-- The stability example: candidate B with score 50. -/
def resultB : RankedResult := { name := "B", score := 50 }

/-! ## Helper lemmas -/

theorem findOversized_eq_none_iff (l : List ResumeFile) :
    findOversized l = none ↔ ∀ f ∈ l, f.size ≤ 5 * 1024 * 1024 := by
  induction l with
  | nil => simp [findOversized]
  | cons f fs ih =>
    by_cases h : f.size > 5 * 1024 * 1024
    · simp only [findOversized, if_pos h, List.forall_mem_cons]
      constructor
      · intro hc; cases hc
      · intro hc; omega
    · simp only [findOversized, if_neg h, List.forall_mem_cons, ih]
      constructor
      · intro hall; exact ⟨by omega, hall⟩
      · intro hc; exact hc.2

theorem findOversized_eq_some_iff (l : List ResumeFile) (f : ResumeFile) :
    findOversized l = some f ↔
      ∃ pre post, l = pre ++ f :: post ∧ 5 * 1024 * 1024 < f.size ∧
        ∀ g ∈ pre, g.size ≤ 5 * 1024 * 1024 := by
  induction l with
  | nil =>
    simp only [findOversized]
    constructor
    · intro hc; cases hc
    · rintro ⟨pre, post, heq, -, -⟩
      exact absurd heq.symm (List.append_ne_nil_of_right_ne_nil pre (List.cons_ne_nil f post))
  | cons a fs ih =>
    by_cases h : a.size > 5 * 1024 * 1024
    · simp only [findOversized, if_pos h]
      constructor
      · intro hc
        obtain rfl : a = f := by injection hc
        exact ⟨[], fs, rfl, h, by simp⟩
      · rintro ⟨pre, post, heq, hsz, hpre⟩
        cases pre with
        | nil =>
          obtain ⟨rfl, rfl⟩ := by simpa using heq
          rfl
        | cons p ps =>
          obtain ⟨rfl, -⟩ : a = p ∧ fs = ps ++ f :: post := by simpa using heq
          exact absurd (hpre a (by simp)) (by omega)
    · simp only [findOversized, if_neg h, ih]
      constructor
      · rintro ⟨pre, post, heq, hsz, hpre⟩
        refine ⟨a :: pre, post, by rw [List.cons_append, heq], hsz, ?_⟩
        intro g hg
        rcases List.mem_cons.mp hg with rfl | hg
        · omega
        · exact hpre g hg
      · rintro ⟨pre, post, heq, hsz, hpre⟩
        cases pre with
        | nil =>
          obtain ⟨rfl, rfl⟩ : a = f ∧ fs = post := by simpa using heq
          omega
        | cons p ps =>
          obtain ⟨rfl, hfs⟩ : a = p ∧ fs = ps ++ f :: post := by simpa using heq
          exact ⟨ps, post, hfs, hsz, fun g hg => hpre g (by simp [hg])⟩

theorem validateInputs_eq_empty_iff (jd : String) (files : List ResumeFile) :
    validateInputs jd files = some .EmptyJobDescription ↔ jsTrim jd = "" := by
  unfold validateInputs
  split_ifs with h1 h2 h3 h4
  · simp [h1]
  · simp [h1]
  · simp [h1]
  · simp [h1]
  · cases hf : findOversized files <;> simp [h1]

theorem validateInputs_eq_short_iff (jd : String) (files : List ResumeFile) :
    validateInputs jd files = some .JobDescriptionTooShort ↔
      jsTrim jd ≠ "" ∧ utf16Length (jsTrim jd) < 50 := by
  unfold validateInputs
  split_ifs with h1 h2 h3 h4
  · simp [h1]
  · simp [h1, h2]
  · simp [h2]
  · simp [h2]
  · cases hf : findOversized files <;> simp [h2]

theorem validateInputs_eq_nofiles_iff (jd : String) (files : List ResumeFile) :
    validateInputs jd files = some .NoFilesProvided ↔
      jsTrim jd ≠ "" ∧ 50 ≤ utf16Length (jsTrim jd) ∧ files = [] := by
  unfold validateInputs
  split_ifs with h1 h2 h3 h4
  · simp [h1]
  · simp [h2]
  · constructor
    · intro _
      exact ⟨h1, Nat.le_of_not_lt h2, List.length_eq_zero.mp h3⟩
    · intro _
      rfl
  · constructor
    · intro hc; cases hc
    · rintro ⟨-, -, rfl⟩
      exact absurd rfl h3
  · constructor
    · intro hc
      cases hf : findOversized files <;> rw [hf] at hc <;> cases hc
    · rintro ⟨-, -, rfl⟩
      exact absurd rfl h3

theorem validateInputs_eq_many_iff (jd : String) (files : List ResumeFile) :
    validateInputs jd files = some .TooManyFiles ↔
      jsTrim jd ≠ "" ∧ 50 ≤ utf16Length (jsTrim jd) ∧ files ≠ [] ∧
        10 < files.length := by
  unfold validateInputs
  split_ifs with h1 h2 h3 h4
  · simp [h1]
  · simp [h2]
  · constructor
    · intro hc; cases hc
    · rintro ⟨-, -, hne, -⟩
      exact absurd (List.length_eq_zero.mp h3) hne
  · constructor
    · intro _
      exact ⟨h1, Nat.le_of_not_lt h2, fun he => h3 (by simp [he]), h4⟩
    · intro _
      rfl
  · constructor
    · intro hc
      cases hf : findOversized files <;> rw [hf] at hc <;> cases hc
    · rintro ⟨-, -, -, h10⟩
      exact absurd h10 h4

theorem validateInputs_eq_large_iff (jd : String) (files : List ResumeFile) (nm : String) :
    validateInputs jd files = some (.FileTooLarge nm) ↔
      jsTrim jd ≠ "" ∧ 50 ≤ utf16Length (jsTrim jd) ∧ files ≠ [] ∧
        files.length ≤ 10 ∧
        ∃ f, findOversized files = some f ∧ f.name = nm := by
  unfold validateInputs
  split_ifs with h1 h2 h3 h4
  · simp [h1]
  · simp [h2]
  · constructor
    · intro hc; cases hc
    · rintro ⟨-, -, hne, -⟩
      exact absurd (List.length_eq_zero.mp h3) hne
  · constructor
    · intro hc; cases hc
    · rintro ⟨-, -, -, h10, -⟩
      exact absurd h4 (Nat.not_lt.mpr h10)
  · cases hf : findOversized files with
    | none =>
      constructor
      · intro hc; cases hc
      · rintro ⟨-, -, -, -, f, hsome, -⟩
        cases hsome
    | some f =>
      constructor
      · intro hc
        obtain rfl : f.name = nm := by injection hc with h; injection h
        exact ⟨h1, Nat.le_of_not_lt h2, fun he => h3 (by simp [he]),
          Nat.le_of_not_lt h4, f, rfl, rfl⟩
      · rintro ⟨-, -, -, -, g, hsome, rfl⟩
        obtain rfl : f = g := by injection hsome
        rfl

theorem validateInputs_eq_none_iff (jd : String) (files : List ResumeFile) :
    validateInputs jd files = none ↔
      jsTrim jd ≠ "" ∧ 50 ≤ utf16Length (jsTrim jd) ∧ files ≠ [] ∧
        files.length ≤ 10 ∧ ∀ f ∈ files, f.size ≤ 5 * 1024 * 1024 := by
  unfold validateInputs
  split_ifs with h1 h2 h3 h4
  · simp [h1]
  · simp [h2]
  · constructor
    · intro hc; cases hc
    · rintro ⟨-, -, hne, -⟩
      exact absurd (List.length_eq_zero.mp h3) hne
  · constructor
    · intro hc; cases hc
    · rintro ⟨-, -, -, h10, -⟩
      exact absurd h4 (Nat.not_lt.mpr h10)
  · cases hf : findOversized files with
    | none =>
      constructor
      · intro _
        exact ⟨h1, Nat.le_of_not_lt h2, fun he => h3 (by simp [he]),
          Nat.le_of_not_lt h4, (findOversized_eq_none_iff files).mp hf⟩
      · intro _
        rfl
    | some f =>
      obtain ⟨pre, post, heq, hsz, -⟩ := (findOversized_eq_some_iff files f).mp hf
      constructor
      · intro hc; cases hc
      · rintro ⟨-, -, -, -, hall⟩
        exact absurd (hall f (by rw [heq]; simp)) (by omega)

theorem handleSubmit_of_failed {st : FormState} {e : SubmissionError}
    (net : Except String (List RankedResult))
    (h : validateInputs st.jd st.files = some e) :
    handleSubmit st net =
      { newState := st, published := none, error := some e,
        networkCalled := false, progressTrace := [] } := by
  unfold handleSubmit
  rw [h]

theorem handleSubmit_of_ok {st : FormState} (data : List RankedResult)
    (h : validateInputs st.jd st.files = none) :
    handleSubmit st (Except.ok data) =
      { newState := { jd := "", files := [] }, published := some data, error := none,
        networkCalled := true, progressTrace := [10, 30, 100, 0] } := by
  unfold handleSubmit
  rw [h]

theorem handleSubmit_of_err {st : FormState} (msg : String)
    (h : validateInputs st.jd st.files = none) :
    handleSubmit st (Except.error msg) =
      { newState := st, published := none,
        error := some (.ServiceUnavailable
          (if msg = "" then "Failed to rank resumes. Please try again." else msg)),
        networkCalled := true, progressTrace := [10, 30, 0] } := by
  unfold handleSubmit
  rw [h]

theorem foldl_max_spec (xs : List Int) :
    ∀ x : Int, xs.foldl max x ∈ x :: xs ∧ ∀ y ∈ x :: xs, y ≤ xs.foldl max x := by
  induction xs with
  | nil => intro x; simp
  | cons a t ih =>
    intro x
    obtain ⟨hmem, hub⟩ := ih (max x a)
    constructor
    · show t.foldl max (max x a) ∈ x :: a :: t
      rcases List.mem_cons.mp hmem with he | hm
      · rcases max_choice x a with hc | hc <;> rw [he, hc] <;> simp
      · simp [hm]
    · intro y hy
      show y ≤ t.foldl max (max x a)
      rcases List.mem_cons.mp hy with rfl | hy'
      · exact le_trans (le_max_left y a) (hub _ (List.mem_cons_self _ _))
      · rcases List.mem_cons.mp hy' with rfl | hy''
        · exact le_trans (le_max_right x y) (hub _ (List.mem_cons_self _ _))
        · exact hub y (List.mem_cons_of_mem _ hy'')

theorem jsMax_spec (xs : List Int) (h : xs ≠ []) :
    ∃ m, jsMax xs = some m ∧ m ∈ xs ∧ ∀ y ∈ xs, y ≤ m := by
  cases xs with
  | nil => exact absurd rfl h
  | cons x t =>
    obtain ⟨hmem, hub⟩ := foldl_max_spec t x
    exact ⟨t.foldl max x, rfl, hmem, hub⟩

theorem foldl_add_score (l : List RankedResult) :
    ∀ a : Int, l.foldl (fun s r => s + r.score) a = a + (l.map (·.score)).sum := by
  induction l with
  | nil => intro a; simp
  | cons x t ih =>
    intro a
    simp only [List.foldl_cons, List.map_cons, List.sum_cons, ih (a + x.score)]
    ring

theorem sumScores_eq_sum_map (l : List RankedResult) :
    sumScores l = (l.map (·.score)).sum := by
  simpa [sumScores] using foldl_add_score l 0

/-- `fixedOneTenths sum len` is the `toFixed(1)` rounding of the exact mean:
it is the floor of `10 * sum / len + 1/2`. -/
theorem fixedOneTenths_spec (s : Int) (n : Nat) (hn : 0 < n) :
    ((fixedOneTenths s n : Int) : ℚ) ≤ 10 * ((s : ℚ) / (n : ℚ)) + 1 / 2 ∧
      10 * ((s : ℚ) / (n : ℚ)) + 1 / 2 < ((fixedOneTenths s n : Int) : ℚ) + 1 := by
  have hb : (0 : Int) < 2 * (n : Int) := by omega
  have hmod1 : 0 ≤ (20 * s + (n : Int)).emod (2 * n) := Int.emod_nonneg _ (by omega)
  have hmod2 : (20 * s + (n : Int)).emod (2 * n) < 2 * n := Int.emod_lt_of_pos _ hb
  have hdiv : (20 * s + (n : Int)).emod (2 * n) +
      2 * (n : Int) * ((20 * s + (n : Int)).ediv (2 * n)) = 20 * s + n :=
    Int.emod_add_ediv _ _
  have hql : 2 * (n : Int) * fixedOneTenths s n ≤ 20 * s + n := by
    unfold fixedOneTenths
    linarith [hdiv, hmod1]
  have hqh : 20 * s + (n : Int) < 2 * (n : Int) * fixedOneTenths s n + 2 * n := by
    unfold fixedOneTenths
    linarith [hdiv, hmod2]
  have hbq : (0 : ℚ) < 2 * (n : ℚ) := by
    have : (0 : ℚ) < (n : ℚ) := by exact_mod_cast hn
    linarith
  have hnq : ((n : ℚ)) ≠ 0 := by positivity
  have e1 : (2 * (n : ℚ)) * (10 * ((s : ℚ) / (n : ℚ)) + 1 / 2) = 20 * s + n := by
    field_simp
    ring
  have l1 : (2 * (n : ℚ)) * ((fixedOneTenths s n : Int) : ℚ) ≤ 20 * (s : ℚ) + n := by
    exact_mod_cast hql
  have l2 : 20 * (s : ℚ) + (n : ℚ) < 2 * (n : ℚ) * ((fixedOneTenths s n : Int) : ℚ) + 2 * n := by
    exact_mod_cast hqh
  constructor
  · have := l1.trans_eq e1.symm
    exact le_of_mul_le_mul_left this hbq
  · have h2 : (2 * (n : ℚ)) * (10 * ((s : ℚ) / (n : ℚ)) + 1 / 2) <
        (2 * (n : ℚ)) * (((fixedOneTenths s n : Int) : ℚ) + 1) := by
      rw [e1]
      linarith [l2]
    exact lt_of_mul_lt_mul_left h2 (le_of_lt hbq)

/-- Stability of `orderedInsert` for the score comparator as a filter
identity: the elements of any given score are preserved in order. -/
theorem filter_score_orderedInsert (x : RankedResult) (sc : Int) (l : List RankedResult) :
    (List.orderedInsert scoreDesc x l).filter (fun r => decide (r.score = sc)) =
      if x.score = sc then x :: l.filter (fun r => decide (r.score = sc))
      else l.filter (fun r => decide (r.score = sc)) := by
  induction l with
  | nil =>
    simp only [List.orderedInsert, List.filter]
    by_cases hx : x.score = sc <;> simp [hx]
  | cons b t ih =>
    by_cases hxb : scoreDesc x b
    · simp only [List.orderedInsert, if_pos hxb, List.filter_cons]
      by_cases hx : x.score = sc <;> simp [hx]
    · simp only [List.orderedInsert, if_neg hxb, List.filter_cons]
      rw [ih]
      by_cases hx : x.score = sc
      · have hbs : ¬ b.score = sc := by
          simp only [scoreDesc, not_le] at hxb
          omega
        simp [hx, hbs]
      · simp [hx]

/-- Stability of the score sort as a filter identity. -/
theorem filter_score_insertionSort (sc : Int) (l : List RankedResult) :
    (List.insertionSort scoreDesc l).filter (fun r => decide (r.score = sc)) =
      l.filter (fun r => decide (r.score = sc)) := by
  induction l with
  | nil => rfl
  | cons x t ih =>
    simp only [List.insertionSort]
    rw [filter_score_orderedInsert, ih, List.filter_cons]
    by_cases hx : x.score = sc <;> simp [hx]

/-- A stable insertion sort of a subsequence is a subsequence of the stable
insertion sort of the full list. -/
theorem insertionSort_sublist {α : Type} {r : α → α → Prop} [DecidableRel r]
    [IsTotal α r] [IsTrans α r] {l₁ l₂ : List α} (h : List.Sublist l₁ l₂) :
    List.Sublist (List.insertionSort r l₁) (List.insertionSort r l₂) := by
  induction h with
  | slnil => exact List.Sublist.refl _
  | cons a h ih =>
    exact ih.trans (List.sublist_orderedInsert a _)
  | cons₂ a h ih =>
    exact List.Sublist.orderedInsert_sublist a ih (List.sorted_insertionSort r _)

/-! ## Claim theorems -/

/-- C2: sorting the filtered view by the score key never mutates its input
(the code sorts a spread copy; the output is a permutation of the input
list, which itself is left untouched in the pure embedding), orders results
by descending score, and is stable: for every score value, the results
carrying that score appear in the output in their original relative order;
in particular `[{name:"A",score:50},{name:"B",score:50}]` sorts to itself,
keeping A before B. -/
theorem C2_score_sort_stable :
    (∀ l : List RankedResult,
      (sortResults .score l).Perm l
      ∧ List.Pairwise (fun a b => b.score ≤ a.score) (sortResults .score l)
      ∧ (∀ sc : Int,
          (sortResults .score l).filter (fun r => decide (r.score = sc)) =
            l.filter (fun r => decide (r.score = sc)))
      ∧ ∀ (t : Int), (deriveView l .score t).visible =
          sortResults .score (filteredResults l t))
    ∧ sortResults .score [resultA, resultB] = [resultA, resultB] := by
  constructor
  · intro l
    exact ⟨List.perm_insertionSort scoreDesc l,
      List.sorted_insertionSort scoreDesc l,
      fun sc => filter_score_insertionSort sc l,
      fun _ => rfl⟩
  · decide

/-- C2 witness: the score sort of the demo result set is a permutation of
it. -/
theorem C2_score_sort_stable_witness :
    (sortResults .score demo3).Perm demo3 :=
  (C2_score_sort_stable.1 demo3).1

/-- C3: the displayed stats are computed over the full unfiltered result
set, independent of the active sort key and filter threshold: `total` is the
result count, `avgScoreTenths` is the `toFixed(1)` rounding of the exact
mean of all scores (characterized as the floor of `10 * mean + 1/2`, in
tenths), and `topScore` is the maximum of all scores. -/
theorem C3_stats_unfiltered :
    ∀ (results : List RankedResult) (k k' : SortKey) (t t' : Int),
      results ≠ [] →
      (deriveView results k t).stats = (deriveView results k' t').stats
      ∧ (deriveView results k t).stats.total = results.length
      ∧ (∃ a : Int, (deriveView results k t).stats.avgScoreTenths = some a
          ∧ (a : ℚ) ≤
              10 * ((((results.map (·.score)).sum : Int) : ℚ) / (results.length : ℚ)) + 1 / 2
          ∧ 10 * ((((results.map (·.score)).sum : Int) : ℚ) / (results.length : ℚ)) + 1 / 2
              < (a : ℚ) + 1)
      ∧ (∃ m, (deriveView results k t).stats.topScore = some m
          ∧ m ∈ results.map (·.score) ∧ ∀ y ∈ results.map (·.score), y ≤ m) := by
  intro results k k' t t' hne
  have hlen : 0 < results.length := List.length_pos.mpr hne
  refine ⟨rfl, rfl, ?_, ?_⟩
  · obtain ⟨hle, hlt⟩ := fixedOneTenths_spec (sumScores results) results.length hlen
    refine ⟨fixedOneTenths (sumScores results) results.length, ?_, ?_, ?_⟩
    · show (computeStats results).avgScoreTenths = _
      unfold computeStats
      rw [if_neg (by omega)]
    · rw [← sumScores_eq_sum_map]
      exact hle
    · rw [← sumScores_eq_sum_map]
      exact hlt
  · obtain ⟨m, hm, hmem, hub⟩ := jsMax_spec (results.map (·.score)) (by simpa using hne)
    refine ⟨m, ?_, hmem, hub⟩
    show (computeStats results).topScore = some m
    unfold computeStats
    exact hm

/-- C3 witness: the result set with scores 90, 70, 50 yields
`total = 3`, `avgScore = 70.0` (700 tenths), `topScore = 90`, independent of
sort key and threshold. -/
theorem C3_stats_unfiltered_witness :
    (deriveView demo3 .score 60).stats = (deriveView demo3 .name 0).stats
    ∧ (deriveView demo3 .score 60).stats.total = 3
    ∧ (deriveView demo3 .score 60).stats
        = { total := 3, avgScoreTenths := some 700, topScore := some 90 } := by
  have h := C3_stats_unfiltered demo3 .score .name 60 0 (by decide)
  exact ⟨h.1, by rw [h.2.1]; decide, by decide⟩

/-- C4: filtering keeps exactly the results with score at or above the
threshold, never mutating the result set (the kept results form a
subsequence of the untouched input), and it is monotonic: for thresholds
`t₁ ≤ t₂`, the visible list at `t₂` is a subsequence of (hence never larger
than) the visible list at `t₁`. -/
theorem C4_filter_monotone :
    ∀ (results : List RankedResult) (sortBy : SortKey) (t t₁ t₂ : Int),
      List.Sublist (filteredResults results t) results
      ∧ (∀ r ∈ filteredResults results t, t ≤ r.score)
      ∧ (∀ r ∈ results, t ≤ r.score → r ∈ filteredResults results t)
      ∧ (t₁ ≤ t₂ →
          List.Sublist (deriveView results sortBy t₂).visible
            (deriveView results sortBy t₁).visible
          ∧ (deriveView results sortBy t₂).visible.length
              ≤ (deriveView results sortBy t₁).visible.length) := by
  intro results sortBy t t₁ t₂
  refine ⟨List.filter_sublist results, ?_, ?_, ?_⟩
  · intro r hr
    simpa using List.of_mem_filter hr
  · intro r hr hle
    exact List.mem_filter.mpr ⟨hr, by simpa using hle⟩
  · intro h12
    have hsub : List.Sublist (filteredResults results t₂) (filteredResults results t₁) := by
      apply List.monotone_filter_right
      intro a ha
      simp only [decide_eq_true_eq] at ha ⊢
      omega
    have hvis : List.Sublist (deriveView results sortBy t₂).visible
        (deriveView results sortBy t₁).visible := by
      show List.Sublist (sortResults sortBy (filteredResults results t₂))
        (sortResults sortBy (filteredResults results t₁))
      cases sortBy
      · exact insertionSort_sublist hsub
      · exact insertionSort_sublist hsub
    exact ⟨hvis, hvis.length_le⟩

/-- C4 witness: at the concrete thresholds 40 ≤ 60 on the demo result set,
the visible list at 60 is a subsequence of (and no longer than) the visible
list at 40. -/
theorem C4_filter_monotone_witness :
    List.Sublist (deriveView demo3 .score 60).visible (deriveView demo3 .score 40).visible
    ∧ (deriveView demo3 .score 60).visible.length
        ≤ (deriveView demo3 .score 40).visible.length :=
  (C4_filter_monotone demo3 .score 0 40 60).2.2.2 (by decide)

/-- C5: the score-to-badge mapping is the fixed four-tier function with
thresholds 80, 60, 40 (no configuration reaches them: `getScoreBadge` takes
only the score), and at the boundaries 79 ↦ Good, 80 ↦ Excellent,
60 ↦ Good, 39 ↦ Poor. -/
theorem C5_badge_thresholds :
    (∀ s : Int,
      (getScoreBadge s = .Excellent ↔ 80 ≤ s)
      ∧ (getScoreBadge s = .Good ↔ 60 ≤ s ∧ s < 80)
      ∧ (getScoreBadge s = .Fair ↔ 40 ≤ s ∧ s < 60)
      ∧ (getScoreBadge s = .Poor ↔ s < 40))
    ∧ getScoreBadge 79 = .Good ∧ getScoreBadge 80 = .Excellent
    ∧ getScoreBadge 60 = .Good ∧ getScoreBadge 39 = .Poor := by
  constructor
  · intro s
    unfold getScoreBadge
    split_ifs with h1 h2 h3 <;> simp <;> omega
  · exact ⟨by decide, by decide, by decide, by decide⟩

/-- C5 witness: the Good tier characterization instantiated at score 72. -/
theorem C5_badge_thresholds_witness :
    getScoreBadge 72 = .Good ↔ 60 ≤ (72 : Int) ∧ (72 : Int) < 80 :=
  (C5_badge_thresholds.1 72).2.1

/-- C10: the badge classification is total over all integers, including
scores outside [0,100], which are never range-validated locally: every
score ≥ 80 is Excellent (e.g. 150), every score < 40 is Poor (e.g. -5), and
every integer receives one of the four categories. -/
theorem C10_badge_total_over_int :
    getScoreBadge 150 = .Excellent ∧ getScoreBadge (-5) = .Poor
    ∧ (∀ s : Int, 80 ≤ s → getScoreBadge s = .Excellent)
    ∧ (∀ s : Int, s < 40 → getScoreBadge s = .Poor)
    ∧ (∀ s : Int,
        getScoreBadge s = .Excellent ∨ getScoreBadge s = .Good ∨
          getScoreBadge s = .Fair ∨ getScoreBadge s = .Poor) := by
  refine ⟨by decide, by decide, ?_, ?_, ?_⟩
  · intro s h
    unfold getScoreBadge
    rw [if_pos (by omega)]
  · intro s h
    unfold getScoreBadge
    rw [if_neg (by omega), if_neg (by omega), if_neg (by omega)]
  · intro s
    unfold getScoreBadge
    split_ifs <;> simp

/-- C10 witness: out-of-range scores 1000 and -123 are classified. -/
theorem C10_badge_total_over_int_witness :
    getScoreBadge 1000 = .Excellent ∧ getScoreBadge (-123) = .Poor :=
  ⟨C10_badge_total_over_int.2.2.1 1000 (by decide),
    C10_badge_total_over_int.2.2.2.1 (-123) (by decide)⟩

/-- C8: an absent or empty result set renders the empty-state placeholder
before any view derivation, and the view (with its average-score division
and maximum) is derived only for non-empty result sets, on which the
division and the maximum always produce values — the NaN / `-Infinity`
cases (`none` in the embedding) are unreachable at the public interface. -/
theorem C8_empty_guard :
    ∀ (sortBy : SortKey) (t : Int),
      renderResults none sortBy t = .emptyState
      ∧ renderResults (some []) sortBy t = .emptyState
      ∧ ∀ rs : List RankedResult,
          (renderResults (some rs) sortBy t = .emptyState ↔ rs = [])
          ∧ (rs ≠ [] →
              renderResults (some rs) sortBy t = .view (deriveView rs sortBy t)
              ∧ (∃ a, (deriveView rs sortBy t).stats.avgScoreTenths = some a)
              ∧ (∃ m, (deriveView rs sortBy t).stats.topScore = some m)) := by
  intro sortBy t
  refine ⟨rfl, rfl, ?_⟩
  intro rs
  have hcase : ∀ hlen : ¬ rs.length = 0,
      renderResults (some rs) sortBy t = .view (deriveView rs sortBy t) := by
    intro hlen
    show (if rs.length = 0 then RenderOutput.emptyState
      else RenderOutput.view (deriveView rs sortBy t)) = _
    rw [if_neg hlen]
  constructor
  · constructor
    · intro h
      by_contra hne
      have hlen : ¬ rs.length = 0 := fun h0 => hne (List.length_eq_zero.mp h0)
      rw [hcase hlen] at h
      cases h
    · rintro rfl
      rfl
  · intro hne
    have hlen : ¬ rs.length = 0 := fun h0 => hne (List.length_eq_zero.mp h0)
    refine ⟨hcase hlen, ?_, ?_⟩
    · refine ⟨fixedOneTenths (sumScores rs) rs.length, ?_⟩
      show (computeStats rs).avgScoreTenths = _
      unfold computeStats
      rw [if_neg hlen]
    · obtain ⟨m, hm, -, -⟩ := jsMax_spec (rs.map (·.score)) (by simpa using hne)
      refine ⟨m, ?_⟩
      show (computeStats rs).topScore = some m
      unfold computeStats
      exact hm

/-- C8 witness: the demo result set is non-empty, so the component renders
the derived view and both stats values are present. -/
theorem C8_empty_guard_witness :
    renderResults (some demo3) .score 0 = .view (deriveView demo3 .score 0) :=
  (((C8_empty_guard .score 0).2.2 demo3).2 (by decide)).1

/-- C1: `submit` applies exactly the five validation checks in the fixed
source order — trimmed description non-empty, trimmed length ≥ 50, file list
non-empty, at most 10 files, every file ≤ 5 MiB in submission order — and
each error is returned exactly when its check is the first to fail (so
failures never accumulate); `FileTooLarge` names the first offending file in
submission order; no network call is made on any validation failure, and the
remote call is made exactly when all five checks pass. -/
theorem C1_validation_fail_fast :
    ∀ (jd : String) (files : List ResumeFile) (net : Except String (List RankedResult)),
      (validateInputs jd files = some .EmptyJobDescription ↔ jsTrim jd = "")
      ∧ (validateInputs jd files = some .JobDescriptionTooShort ↔
          jsTrim jd ≠ "" ∧ utf16Length (jsTrim jd) < 50)
      ∧ (validateInputs jd files = some .NoFilesProvided ↔
          jsTrim jd ≠ "" ∧ 50 ≤ utf16Length (jsTrim jd) ∧ files = [])
      ∧ (validateInputs jd files = some .TooManyFiles ↔
          jsTrim jd ≠ "" ∧ 50 ≤ utf16Length (jsTrim jd) ∧ files ≠ [] ∧ 10 < files.length)
      ∧ (∀ nm, validateInputs jd files = some (.FileTooLarge nm) ↔
          jsTrim jd ≠ "" ∧ 50 ≤ utf16Length (jsTrim jd) ∧ files ≠ [] ∧ files.length ≤ 10
          ∧ ∃ pre f post, files = pre ++ f :: post ∧ f.name = nm
              ∧ 5 * 1024 * 1024 < f.size ∧ ∀ g ∈ pre, g.size ≤ 5 * 1024 * 1024)
      ∧ (validateInputs jd files = none ↔
          jsTrim jd ≠ "" ∧ 50 ≤ utf16Length (jsTrim jd) ∧ files ≠ [] ∧ files.length ≤ 10
          ∧ ∀ f ∈ files, f.size ≤ 5 * 1024 * 1024)
      ∧ ((handleSubmit ⟨jd, files⟩ net).networkCalled = true ↔ validateInputs jd files = none)
      ∧ (∀ e, validateInputs jd files = some e →
          (handleSubmit ⟨jd, files⟩ net).error = some e
          ∧ (handleSubmit ⟨jd, files⟩ net).networkCalled = false
          ∧ (handleSubmit ⟨jd, files⟩ net).published = none) := by
  intro jd files net
  refine ⟨validateInputs_eq_empty_iff jd files, validateInputs_eq_short_iff jd files,
    validateInputs_eq_nofiles_iff jd files, validateInputs_eq_many_iff jd files,
    ?_, validateInputs_eq_none_iff jd files, ?_, ?_⟩
  · intro nm
    rw [validateInputs_eq_large_iff jd files nm]
    refine and_congr_right fun _ => and_congr_right fun _ => and_congr_right fun _ =>
      and_congr_right fun _ => ?_
    constructor
    · rintro ⟨f, hsome, rfl⟩
      obtain ⟨pre, post, heq, hsz, hpre⟩ := (findOversized_eq_some_iff files f).mp hsome
      exact ⟨pre, f, post, heq, rfl, hsz, hpre⟩
    · rintro ⟨pre, f, post, heq, rfl, hsz, hpre⟩
      exact ⟨f, (findOversized_eq_some_iff files f).mpr ⟨pre, post, heq, hsz, hpre⟩, rfl⟩
  · cases hv : validateInputs jd files with
    | none =>
      cases net with
      | ok data => rw [handleSubmit_of_ok data hv]; simp
      | error msg => rw [handleSubmit_of_err msg hv]; simp
    | some e =>
      rw [handleSubmit_of_failed net hv]
      simp
  · intro e he
    rw [handleSubmit_of_failed net he]
    exact ⟨rfl, rfl, rfl⟩

/-- C1 witness: with a 6 MiB file first in the batch, validation stops at
the size check naming that file, and no network call is made. -/
theorem C1_validation_fail_fast_witness :
    validateInputs jd63 [bigFile, smallFile] = some (.FileTooLarge "big.pdf")
    ∧ (handleSubmit ⟨jd63, [bigFile, smallFile]⟩ (Except.ok demo3)).networkCalled = false
    ∧ (handleSubmit ⟨jd63, [bigFile, smallFile]⟩ (Except.ok demo3)).error
        = some (.FileTooLarge "big.pdf") := by
  have hv : validateInputs jd63 [bigFile, smallFile] = some (.FileTooLarge "big.pdf") := by
    decide
  have h := (C1_validation_fail_fast jd63 [bigFile, smallFile] (Except.ok demo3)).2.2.2.2.2.2.2
    (.FileTooLarge "big.pdf") hv
  exact ⟨hv, h.2.1, h.1⟩

/-- C6: on a successful submission both inputs are cleared and the new
result set is published to the caller; on any failure — local validation or
remote/transport — the inputs are left exactly as they were and nothing is
published. -/
theorem C6_inputs_cleared_on_success_only :
    ∀ (st : FormState) (data : List RankedResult) (msg : String)
      (net : Except String (List RankedResult)),
      (validateInputs st.jd st.files = none →
        (handleSubmit st (Except.ok data)).newState = { jd := "", files := [] }
        ∧ (handleSubmit st (Except.ok data)).published = some data
        ∧ (handleSubmit st (Except.error msg)).newState = st
        ∧ (handleSubmit st (Except.error msg)).published = none)
      ∧ (validateInputs st.jd st.files ≠ none →
        (handleSubmit st net).newState = st ∧ (handleSubmit st net).published = none) := by
  intro st data msg net
  constructor
  · intro hv
    rw [handleSubmit_of_ok data hv, handleSubmit_of_err msg hv]
    exact ⟨rfl, rfl, rfl, rfl⟩
  · intro hv
    cases h : validateInputs st.jd st.files with
    | none => exact absurd h hv
    | some e =>
      rw [handleSubmit_of_failed net h]
      exact ⟨rfl, rfl⟩

/-- C6 witness: a valid submission clears the inputs on success and
preserves them on a transport failure. -/
theorem C6_inputs_cleared_on_success_only_witness :
    (handleSubmit ⟨jd63, [smallFile]⟩ (Except.ok demo3)).newState = { jd := "", files := [] }
    ∧ (handleSubmit ⟨jd63, [smallFile]⟩ (Except.ok demo3)).published = some demo3
    ∧ (handleSubmit ⟨jd63, [smallFile]⟩ (Except.error "boom")).newState
        = ⟨jd63, [smallFile]⟩ := by
  have h := (C6_inputs_cleared_on_success_only ⟨jd63, [smallFile]⟩ demo3 "boom"
    (Except.ok demo3)).1 (by decide)
  exact ⟨h.1, h.2.1, h.2.2.1⟩

/-- C7 counterexample: a job description that is all whitespace has trimmed
length 0 < 50, yet `submit` fails with `EmptyJobDescription`, not
`JobDescriptionTooShort` — check (1) fires before check (2). -/
theorem C7_counterexample_empty_jd :
    utf16Length (jsTrim " ") < 50
    ∧ (handleSubmit ⟨" ", [smallFile]⟩ (Except.ok demo3)).error
        = some SubmissionError.EmptyJobDescription
    ∧ (handleSubmit ⟨" ", [smallFile]⟩ (Except.ok demo3)).error
        ≠ some SubmissionError.JobDescriptionTooShort := by
  decide

/-- C7 (amended): for every job description whose trimmed length is < 50,
`submit` fails locally with no network call — with `EmptyJobDescription`
when the trimmed description is empty, and with `JobDescriptionTooShort`
otherwise. -/
theorem C7_short_jd_rejected :
    ∀ (jd : String) (files : List ResumeFile) (net : Except String (List RankedResult)),
      utf16Length (jsTrim jd) < 50 →
        (handleSubmit ⟨jd, files⟩ net).networkCalled = false
        ∧ (handleSubmit ⟨jd, files⟩ net).error =
            some (if jsTrim jd = "" then SubmissionError.EmptyJobDescription
              else SubmissionError.JobDescriptionTooShort) := by
  intro jd files net hshort
  by_cases he : jsTrim jd = ""
  · have hv : validateInputs jd files = some .EmptyJobDescription :=
      (validateInputs_eq_empty_iff jd files).mpr he
    rw [handleSubmit_of_failed net hv]
    exact ⟨rfl, by simp [he]⟩
  · have hv : validateInputs jd files = some .JobDescriptionTooShort :=
      (validateInputs_eq_short_iff jd files).mpr ⟨he, hshort⟩
    rw [handleSubmit_of_failed net hv]
    exact ⟨rfl, by simp [he]⟩

/-- C7 witness: a 9-character description is rejected as too short with no
network call. -/
theorem C7_short_jd_rejected_witness :
    (handleSubmit ⟨"too short", []⟩ (Except.ok demo3)).networkCalled = false
    ∧ (handleSubmit ⟨"too short", []⟩ (Except.ok demo3)).error
        = some SubmissionError.JobDescriptionTooShort := by
  have h := C7_short_jd_rejected "too short" [] (Except.ok demo3) (by decide)
  refine ⟨h.1, ?_⟩
  rw [h.2]
  decide

/-- C9 counterexample: on a successful run the published progress sequence
is 10, 30, 100 and then the `finally` reset 0 — four publications, not
three, and not monotonically non-decreasing (100 is followed by 0), so the
indicator is reset on success as well, not only on failure. -/
theorem C9_counterexample_success_reset :
    (handleSubmit ⟨jd63, [smallFile]⟩ (Except.ok demo3)).progressTrace = [10, 30, 100, 0]
    ∧ ¬ List.Chain' (fun p q => p ≤ q)
        (handleSubmit ⟨jd63, [smallFile]⟩ (Except.ok demo3)).progressTrace := by
  have h1 : (handleSubmit ⟨jd63, [smallFile]⟩ (Except.ok demo3)).progressTrace
      = [10, 30, 100, 0] := by decide
  refine ⟨h1, ?_⟩
  rw [h1]
  intro hch
  simp [List.chain'_cons] at hch

/-- C9 (amended): every published progress value is an integer in [0,100];
the values before the final one are non-decreasing through the checkpoints
(10 validation passed, 30 request dispatched, 100 response received); every
run that passes validation ends by publishing a reset to 0 — after failure
and also after success — and a run failing validation publishes nothing
(the indicator stays at its resting 0). -/
theorem C9_progress_checkpoints :
    ∀ (st : FormState) (net : Except String (List RankedResult)),
      (∀ p ∈ (handleSubmit st net).progressTrace, p ≤ 100)
      ∧ List.Chain' (fun p q => p ≤ q) (handleSubmit st net).progressTrace.dropLast
      ∧ ((handleSubmit st net).progressTrace ≠ [] →
          (handleSubmit st net).progressTrace.getLast? = some 0)
      ∧ (validateInputs st.jd st.files = none →
          (∀ data, (handleSubmit st (Except.ok data)).progressTrace = [10, 30, 100, 0])
          ∧ (∀ msg, (handleSubmit st (Except.error msg)).progressTrace = [10, 30, 0]))
      ∧ (validateInputs st.jd st.files ≠ none → (handleSubmit st net).progressTrace = []) := by
  intro st net
  cases hv : validateInputs st.jd st.files with
  | some e =>
    rw [handleSubmit_of_failed net hv]
    refine ⟨by simp, by simp, by simp, ?_, fun _ => rfl⟩
    intro hnone
    cases hnone
  | none =>
    have hok : ∀ data, (handleSubmit st (Except.ok data)).progressTrace = [10, 30, 100, 0] := by
      intro data
      rw [handleSubmit_of_ok data hv]
    have herr : ∀ msg, (handleSubmit st (Except.error msg)).progressTrace = [10, 30, 0] := by
      intro msg
      rw [handleSubmit_of_err msg hv]
    have htr : (handleSubmit st net).progressTrace = [10, 30, 100, 0]
        ∨ (handleSubmit st net).progressTrace = [10, 30, 0] := by
      cases net with
      | ok data => exact Or.inl (hok data)
      | error msg => exact Or.inr (herr msg)
    refine ⟨?_, ?_, ?_, fun _ => ⟨hok, herr⟩, fun hne => absurd rfl hne⟩
    · rcases htr with h | h <;> rw [h] <;> decide
    · rcases htr with h | h <;> rw [h] <;> simp [List.chain'_cons]
    · rcases htr with h | h <;> rw [h] <;> decide

/-- C9 witness: a concrete valid submission that fails in transport
publishes exactly 10, 30, 0. -/
theorem C9_progress_checkpoints_witness :
    (handleSubmit ⟨jd63, [smallFile]⟩ (Except.error "boom")).progressTrace = [10, 30, 0] := by
  have h := C9_progress_checkpoints ⟨jd63, [smallFile]⟩ (Except.error "boom")
  exact (h.2.2.2.1 (by decide)).2 "boom"

end ResumeScreener
